import Mathlib

/-!
Shallow embedding of the blog-post generation pipeline of
`dnd1097/ai-blog-generator` (files `src/ai_blog_generator/generator.py` and
`app.py`).  Python strings are modelled as `List Char`, Python `dict`
(insertion ordered) as an association list, fallible calls as `Except`/`Option`,
and the external agents (query planner, article scraper, writer) as explicit
function parameters.
-/

namespace AIBlog

/-- Python strings, modelled as lists of unicode code points. -/
abbrev PyStr := List Char

/-- The control characters removed by `_sanitize_user_text`
(`re.sub(r"[\x00-\x08\x0b\x0c\x0e-\x1f\x7f]", "", text)`). -/
def isCtlStripped (c : Char) : Bool :=
  (c.toNat ≤ 0x08) || (c.toNat == 0x0b) || (c.toNat == 0x0c) ||
    (0x0e ≤ c.toNat && c.toNat ≤ 0x1f) || (c.toNat == 0x7f)

/-- The characters matched by Python's `\s` on `str` (ASCII whitespace plus
the unicode whitespace code points). -/
def pySpaceChar (c : Char) : Bool :=
  [' ', '\t', '\n', '\x0b', '\x0c', '\r', '\x1c', '\x1d', '\x1e', '\x1f',
   '\x85', '\xa0', ' ', ' ', ' ', ' ', ' ', ' ',
   ' ', ' ', ' ', ' ', ' ', ' ', ' ',
   ' ', ' ', ' ', '　'].contains c

/-- `re.sub(r"[\x00-\x08\x0b\x0c\x0e-\x1f\x7f]", "", s)`. -/
def stripCtl (s : PyStr) : PyStr := s.filter (fun c => !isCtlStripped c)

/-- `re.sub(r"\s+", " ", s)`: every maximal run of whitespace becomes a single
space.  A whitespace character followed by more whitespace is dropped; the last
character of a run is replaced by `' '`. -/
def collapseWs : PyStr → PyStr
  | [] => []
  | [c] => if pySpaceChar c then [' '] else [c]
  | c :: d :: rest =>
    if pySpaceChar c && pySpaceChar d then collapseWs (d :: rest)
    else (if pySpaceChar c then ' ' else c) :: collapseWs (d :: rest)

/-- Left part of Python `str.strip()`. -/
def lstripWs (s : PyStr) : PyStr := s.dropWhile (fun c => pySpaceChar c)

/-- Right part of Python `str.strip()`. -/
def rstripWs (s : PyStr) : PyStr :=
  (s.reverse.dropWhile (fun c => pySpaceChar c)).reverse

/-- Python `str.strip()` (no argument): remove leading and trailing
whitespace. -/
def pyStripWs (s : PyStr) : PyStr := rstripWs (lstripWs s)

/-- `BlogPostGenerator._sanitize_user_text(text, max_length)`:
strip control characters, collapse whitespace runs to one space, strip,
truncate to `max_length` code points.  The absent-input normalisation
(`text or ""`) happens at the call sites (`run`), which pass a present
string here. -/
def sanitize_user_text (text : PyStr) (max_length : Nat) : PyStr :=
  (pyStripWs (collapseWs (stripCtl text))).take max_length

/-! ## Data model

`NewsArticle`, `ScrapedArticle` and `SearchResults` are imported by
`generator.py` from `ai_blog_generator/response_model.py`, a file that is not
part of the sources; their fields are modelled from the spec's data model
(SearchResult: `title`, `url`, `summary: optional`; ScrapedArticle adds
`content: optional`). -/

/-- Modelled from the spec: `SearchResult` of the data model (the
`NewsArticle` pydantic model of the missing `response_model.py`). -/
structure NewsArticle where
  title : PyStr
  url : PyStr
  summary : Option PyStr
deriving DecidableEq, Repr

/-- Modelled from the spec: `ScrapedArticle` of the data model (from the
missing `response_model.py`): a SearchResult enriched with
`content: optional string`, absent content signalling extraction failure. -/
structure ScrapedArticle where
  title : PyStr
  url : PyStr
  summary : Option PyStr
  content : Option PyStr
deriving DecidableEq, Repr

/-- Modelled from the spec: the `SearchResults` container (an ordered
sequence of SearchResult). -/
structure SearchResults where
  articles : List NewsArticle
deriving DecidableEq, Repr

/-! ## Generic string helpers (Python stdlib behaviour used by the source) -/

/-- Split `s` at the first (leftmost) occurrence of `pat`:
`splitOnce pat s = some (pre, post)` with `s = pre ++ pat ++ post` and `pat`
not occurring earlier.  Models the leftmost behaviour of `re.search` for a
literal pattern. -/
def splitOnce (pat : PyStr) : PyStr → Option (PyStr × PyStr)
  | [] => if pat = [] then some ([], []) else none
  | c :: rest =>
    if pat.isPrefixOf (c :: rest) then some ([], (c :: rest).drop pat.length)
    else
      match splitOnce pat rest with
      | some (pre, post) => some (c :: pre, post)
      | none => none

/-- `re.sub(r"<[^>]+>", "", s)` as a single left-to-right scan.  The second
argument is `none` outside a candidate tag and `some buf` (chars after the
last unmatched `<`, reversed) inside one.  `<` followed directly by `>` is no
match (`[^>]+` needs at least one character) and both characters are kept;
an unclosed `<` at end of string is emitted literally. -/
def stripTagsAux : PyStr → Option PyStr → PyStr
  | [], none => []
  | [], some buf => '<' :: buf.reverse
  | c :: rest, none =>
    if c = '<' then stripTagsAux rest (some [])
    else c :: stripTagsAux rest none
  | c :: rest, some buf =>
    if c = '>' then
      if buf = [] then '<' :: '>' :: stripTagsAux rest none
      else stripTagsAux rest none
    else stripTagsAux rest (some (c :: buf))

/-- `re.sub(r"<[^>]+>", "", s)` (tag stripping of RSS descriptions). -/
def stripTags (s : PyStr) : PyStr := stripTagsAux s none

/-! ## `BlogPostGenerator._search_google_news_rss`, structured-parse branch

The network fetch and `ElementTree` are external (stdlib/remote) capabilities;
the embedding starts from the list of parsed `<item>` records, each with the
`findtext` results for `title`, `link` and `description` (`none` = element
missing; findtext yields `""` for an empty element).  `html.unescape` is a
stdlib function and is passed in as a parameter — every claim below holds for
all unescape functions. -/

structure XmlItem where
  title : Option PyStr
  link : Option PyStr
  description : Option PyStr
deriving DecidableEq, Repr

/-- The summary computation of the loop body:
`summary_raw = html.unescape(description).strip() if description else None`
followed by
`summary = re.sub(r"<[^>]+>", "", summary_raw).strip() if summary_raw else None`
(Python falsiness: `None` and `""` both fail the guards). -/
def itemSummary (unescape : PyStr → PyStr) (it : XmlItem) : Option PyStr :=
  match it.description with
  | none => none
  | some d =>
    if d = [] then none
    else
      let summaryRaw := pyStripWs (unescape d)
      if summaryRaw = [] then none
      else some (pyStripWs (stripTags summaryRaw))

/-- One iteration of the structured-parse loop up to the dedup check:
`if not title or not link: continue`, then unescape/strip title, strip link.
Returns the `NewsArticle` the item would contribute, or `none` if skipped. -/
def xmlArticle (unescape : PyStr → PyStr) (it : XmlItem) : Option NewsArticle :=
  match it.title, it.link with
  | some t, some l =>
    if t = [] ∨ l = [] then none
    else some { title := pyStripWs (unescape t)
                url := pyStripWs l
                summary := itemSummary unescape it }
  | _, _ => none

/-- The structured-parse accumulation loop: skip items without title/link,
skip urls already in `seen_urls`, append otherwise, and break as soon as
`len(articles) >= max_results` (checked after appending). -/
def xmlLoop (unescape : PyStr → PyStr) (items : List XmlItem) (seen : List PyStr)
    (acc : List NewsArticle) (maxResults : Nat) : List NewsArticle :=
  match items with
  | [] => acc
  | it :: rest =>
    match xmlArticle unescape it with
    | none => xmlLoop unescape rest seen acc maxResults
    | some art =>
      if art.url ∈ seen then xmlLoop unescape rest seen acc maxResults
      else
        let acc2 := acc ++ [art]
        if maxResults ≤ acc2.length then acc2
        else xmlLoop unescape rest (art.url :: seen) acc2 maxResults

/-- `_search_google_news_rss` on a feed whose structured parse succeeds with
item list `items`: the loop above followed by the final
`articles[:max_results]` truncation. -/
def search_google_news_rss_xml (unescape : PyStr → PyStr) (items : List XmlItem)
    (maxResults : Nat) : SearchResults :=
  ⟨(xmlLoop unescape items [] [] maxResults).take maxResults⟩

/-! Spec-side reference formulation of the dedup contract, used to state C2:
keep the first occurrence of each url, preserving order. -/

/-- The accepted (non-skipped) articles of the feed, in feed order, before
deduplication and truncation. -/
def acceptedArticles (unescape : PyStr → PyStr) (items : List XmlItem) : List NewsArticle :=
  items.filterMap (xmlArticle unescape)

/-- First-occurrence-wins deduplication by url, preserving relative order;
`seen` holds urls that are already taken. -/
def dedupByUrl (seen : List PyStr) : List NewsArticle → List NewsArticle
  | [] => []
  | a :: rest =>
    if a.url ∈ seen then dedupByUrl seen rest
    else a :: dedupByUrl (a.url :: seen) rest

/-! ## `_search_google_news_rss`, fallback branch (`except ElementTree.ParseError`)

`items = re.findall(r"<item>(.*?)</item>", feed, flags=re.DOTALL)` followed by
per-item regex extraction.  The title/description patterns are written
`r"<title><!\\[CDATA\\[(.*?)\\]\\]></title>"` in the source: inside a raw
string `\\` is a literal backslash, so as a regex this is
literal `<title><!`, a backslash, a character class
`[CDATA\\[(.*?)\\]` (= one char of {C,D,A,T,A,\,[,(,.,*,?,)}), a backslash,
then literal `]></title>` — and it contains no capture group.  The embedding
reproduces that compiled pattern exactly. -/

/-- The character class `[CDATA\\[(.*?)\\]` of the miswritten CDATA patterns. -/
def buggyCDataClass : List Char := ['C', 'D', 'A', 'T', 'A', '\\', '[', '(', '.', '*', '?', ')']

/-- Does the miswritten title pattern match at the start of `s`? -/
def buggyTitleHere : PyStr → Bool
  | '<' :: 't' :: 'i' :: 't' :: 'l' :: 'e' :: '>' :: '<' :: '!' :: '\\' :: c :: '\\' :: ']' ::
      '>' :: '<' :: '/' :: 't' :: 'i' :: 't' :: 'l' :: 'e' :: '>' :: _ => buggyCDataClass.contains c
  | _ => false

/-- `re.search` of the miswritten title pattern: does it match anywhere? -/
def hasBuggyTitleMatch : PyStr → Bool
  | [] => false
  | c :: rest => buggyTitleHere (c :: rest) || hasBuggyTitleMatch rest

/-- Does the miswritten description pattern match at the start of `s`? -/
def buggyDescHere : PyStr → Bool
  | '<' :: 'd' :: 'e' :: 's' :: 'c' :: 'r' :: 'i' :: 'p' :: 't' :: 'i' :: 'o' :: 'n' :: '>' ::
      '<' :: '!' :: '\\' :: c :: '\\' :: ']' :: '>' :: '<' :: '/' :: 'd' :: 'e' :: 's' :: 'c' ::
      'r' :: 'i' :: 'p' :: 't' :: 'i' :: 'o' :: 'n' :: '>' :: _ => buggyCDataClass.contains c
  | _ => false

/-- `re.search` of the miswritten description pattern. -/
def hasBuggyDescMatch : PyStr → Bool
  | [] => false
  | c :: rest => buggyDescHere (c :: rest) || hasBuggyDescMatch rest

/-- `re.search(r"<link>(.*?)</link>", item)`, group 1: leftmost `<link>`,
then the shortest stretch up to `</link>`. -/
def linkFirstMatch (item : PyStr) : Option PyStr :=
  match splitOnce (String.toList "<link>") item with
  | none => none
  | some (_, rest) => (splitOnce (String.toList "</link>") rest).map fun p => p.1

/-- `re.findall(r"<item>(.*?)</item>", feed, flags=re.DOTALL)`: successive
non-overlapping `<item>`…`</item>` bodies.  The fuel argument only bounds the
number of iterations; each iteration consumes at least the two markers, so
`feed.length` is always enough. -/
def findItemsAux : Nat → PyStr → List PyStr
  | 0, _ => []
  | fuel+1, str =>
    match splitOnce (String.toList "<item>") str with
    | none => []
    | some (_, rest) =>
      match splitOnce (String.toList "</item>") rest with
      | none => []
      | some (body, rest2) => body :: findItemsAux fuel rest2

/-- The item bodies the fallback branch iterates over. -/
def findItems (feed : PyStr) : List PyStr := findItemsAux feed.length feed

/-- The fallback accumulation loop.  If a buggy pattern matches,
`.group(1)` raises `IndexError` (the compiled pattern has no groups) and the
exception escapes `_search_google_news_rss` — modelled as `Except.error`.
If it does not match, the corresponding variable is `None`; because the
title is then always `None`, `if not url or not title or url in seen_urls:
continue` skips every item. -/
def fallbackLoop (items : List PyStr) (seen : List PyStr) (acc : List NewsArticle)
    (maxResults : Nat) : Except Unit (List NewsArticle) :=
  match items with
  | [] => .ok acc
  | it :: rest =>
    if hasBuggyTitleMatch it then .error ()
    else
      let title : Option PyStr := none
      let url : Option PyStr := (linkFirstMatch it).map fun u => pyStripWs u
      if hasBuggyDescMatch it then .error ()
      else
        let summary : Option PyStr := none
        match url, title with
        | some u, some t =>
          if t = [] ∨ u = [] ∨ u ∈ seen then fallbackLoop rest seen acc maxResults
          else
            let acc2 := acc ++ [{ title := t, url := u, summary := summary }]
            if maxResults ≤ acc2.length then .ok acc2
            else fallbackLoop rest (u :: seen) acc2 maxResults
        | _, _ => fallbackLoop rest seen acc maxResults

/-- `_search_google_news_rss` on a feed whose structured parse raises
`ElementTree.ParseError`: the fallback extraction, then the final
`articles[:max_results]`. -/
def search_google_news_rss_fallback (feed : PyStr) (maxResults : Nat) :
    Except Unit SearchResults :=
  (fallbackLoop (findItems feed) [] [] maxResults).map fun arts => ⟨arts.take maxResults⟩

/-- Modelled from the spec: the extraction the fallback patterns were meant
to perform — pull the payload out of a CDATA-wrapped title
`<title><![CDATA[...]]></title>` (spec §4.3: item records with CDATA-wrapped
title/description fields). -/
def intendedCDataTitle (s : PyStr) : Option PyStr :=
  match splitOnce (String.toList "<title><![CDATA[") s with
  | none => none
  | some (_, rest) => (splitOnce (String.toList "]]></title>") rest).map fun p => p.1

/-! ## `BlogPostGenerator.get_search_results` (retry wrapper)

The remote fetch is modelled as a function from the (0-based) attempt number
to either an exception (`Except.error`) or a parsed `SearchResults`.  The
outcome records how often the underlying search ran and which `time.sleep`
durations were executed, in order. -/

structure SearchOutcome where
  result : Option SearchResults
  calls : Nat
  sleeps : List Nat
deriving DecidableEq, Repr

/-- The `for attempt in range(num_attempts)` loop: a non-empty result
returns immediately; an empty result logs and retries with no sleep (the
`time.sleep` sits only in the `except` branch); an exception sleeps
`min(2 * (attempt + 1), 5)` and retries. -/
def get_search_results_aux (search : Nat → Except Unit SearchResults) :
    Nat → Nat → SearchOutcome
  | 0, _ => ⟨none, 0, []⟩
  | fuel+1, attempt =>
    match search attempt with
    | .ok res =>
      if 0 < res.articles.length then ⟨some res, 1, []⟩
      else
        let o := get_search_results_aux search fuel (attempt + 1)
        ⟨o.result, o.calls + 1, o.sleeps⟩
    | .error _ =>
      let o := get_search_results_aux search fuel (attempt + 1)
      ⟨o.result, o.calls + 1, min (2 * (attempt + 1)) 5 :: o.sleeps⟩

/-- `BlogPostGenerator.get_search_results(topic, num_attempts)`. -/
def get_search_results (search : Nat → Except Unit SearchResults)
    (num_attempts : Nat) : SearchOutcome :=
  get_search_results_aux search num_attempts 0

/-! ## `BlogPostGenerator.scrape_articles`

The scraped-article store is a Python `dict` (insertion ordered), modelled as
an association list.  `dictAssign` is plain `d[k] = v`: replace in place if
the key exists, append otherwise.  The article-scraper agent is a parameter
`scraper`; `scraper a = none` models a `run` response that is `None`, has no
content, or whose content is not a `ScrapedArticle` (the `isinstance` check
fails), `some sa` a response carrying `sa`. -/

abbrev ScrapeMap := List (PyStr × ScrapedArticle)

/-- `key in dict`. -/
def dictContains (m : ScrapeMap) (k : PyStr) : Bool := m.any fun p => p.1 == k

/-- `dict.get(key)` / `dict[key]`. -/
def dictLookup (m : ScrapeMap) (k : PyStr) : Option ScrapedArticle :=
  (m.find? fun p => p.1 == k).map fun p => p.2

/-- `dict[k] = v` on an insertion-ordered dict. -/
def dictAssign (m : ScrapeMap) (k : PyStr) (v : ScrapedArticle) : ScrapeMap :=
  if dictContains m k then m.map fun p => if p.1 == k then (k, v) else p
  else m ++ [(k, v)]

/-- `dict.values()`. -/
def dictValues (m : ScrapeMap) : List ScrapedArticle := m.map fun p => p.2

/-- The `for article in search_results.articles` loop of `scrape_articles`:
skip urls already in the map, call the scraper otherwise, store a returned
`ScrapedArticle` under `response.content.url`, skip scrape failures with a
warning.  The second component counts scraper invocations. -/
def scrape_articles_loop (scraper : NewsArticle → Option ScrapedArticle) :
    List NewsArticle → ScrapeMap → ScrapeMap × Nat
  | [], m => (m, 0)
  | a :: rest, m =>
    if dictContains m a.url then scrape_articles_loop scraper rest m
    else
      match scraper a with
      | some sa =>
        let r := scrape_articles_loop scraper rest (dictAssign m sa.url sa)
        (r.1, r.2 + 1)
      | none =>
        let r := scrape_articles_loop scraper rest m
        (r.1, r.2 + 1)

/-- `BlogPostGenerator.scrape_articles(topic, search_results)`. -/
def scrape_articles (scraper : NewsArticle → Option ScrapedArticle)
    (searchResults : SearchResults) : ScrapeMap × Nat :=
  scrape_articles_loop scraper searchResults.articles []

/-- Modelled from the spec: the per-article scrape contract (spec §4.4
"Article Scraper"), implemented by the article-scraper agent whose behaviour
(an LLM agent with an extraction tool, built in `agents.py`) is external to
the sources: `scrape` never raises; it prefers the extracted title and falls
back to the SearchResult title, carries url and summary through unchanged,
and turns an extraction failure — or extracted text that is empty after
trimming — into `content = none`.  `extract` is the external extraction
capability (`{title, text}` or failure). -/
def scrapeOne (extract : NewsArticle → Except PyStr (Option PyStr × PyStr))
    (a : NewsArticle) : ScrapedArticle :=
  match extract a with
  | .ok (extractedTitle, text) =>
    { title := extractedTitle.getD a.title
      url := a.url
      summary := a.summary
      content := if pyStripWs text = [] then none else some (pyStripWs text) }
  | .error _ =>
    { title := a.title, url := a.url, summary := a.summary, content := none }

/-- The article-scraper agent seen from `scrape_articles`, under the spec's
per-scrape contract: every call returns a `ScrapedArticle`. -/
def specScraper (extract : NewsArticle → Except PyStr (Option PyStr × PyStr)) :
    NewsArticle → Option ScrapedArticle :=
  fun a => some (scrapeOne extract a)

/-! ## `BlogPostGenerator.run` -/

/-- One streamed `RunResponse`: incremental content plus optional source
attributions (`app.py` reads `.content` and `.sources`). -/
structure Chunk where
  content : Option PyStr
  sources : List PyStr
deriving DecidableEq, Repr

/-- The `writer_input` dict assembled by `run` (its `json.dumps`
serialisation is a formatting detail not modelled). -/
structure WriterInput where
  topic : PyStr
  style_guidelines : PyStr
  include_sources : Bool
  articles : List ScrapedArticle
deriving DecidableEq, Repr

/-- The fallback record `run` builds when scraping produced nothing:
`ScrapedArticle(title=…, url=…, summary=…, content=None)`. -/
def placeholderOf (a : NewsArticle) : ScrapedArticle :=
  { title := a.title, url := a.url, summary := a.summary, content := none }

/-- `BlogPostGenerator._should_use_query_planner(raw_topic)`. -/
def should_use_query_planner (raw : PyStr) : Bool :=
  120 < raw.length || raw.contains '\n' || 1 < (raw.filter fun c => c == '.').length

/-- Python `str.strip('"')`. -/
def stripQuotes (s : PyStr) : PyStr :=
  ((s.dropWhile fun c => c == '"').reverse.dropWhile fun c => c == '"').reverse

/-- The external collaborators of one `run`: the query planner (`none` when
the workflow has no planner agent; otherwise the outcome of `planner.run` —
an exception, a falsy response/content, or a content string), the RSS fetch
(depending on the search query and, through `get_search_results`, on the
attempt number), the article scraper and the writer stream. -/
structure RunEnv where
  planner : Option (Except Unit (Option PyStr))
  search : PyStr → Nat → Except Unit SearchResults
  scraper : NewsArticle → Option ScrapedArticle
  writer : WriterInput → List Chunk

/-- `BlogPostGenerator._build_search_query`; also counts planner
invocations. -/
def build_search_query (planner : Option (Except Unit (Option PyStr)))
    (rawTopic cleanedTopic _styleGuidelines : PyStr) : PyStr × Nat :=
  match planner with
  | none => (cleanedTopic, 0)
  | some plannerRun =>
    if !should_use_query_planner rawTopic then (cleanedTopic, 0)
    else
      match plannerRun with
      | .error _ => (cleanedTopic, 1)
      | .ok none => (cleanedTopic, 1)
      | .ok (some content) =>
        let query := stripQuotes (pyStripWs (sanitize_user_text content 200))
        if query = [] then (cleanedTopic, 1) else (query, 1)

/-- Everything one call of `run` yields and does: the streamed chunks plus
the externally observable calls (planner/search/scraper/writer invocation
counts, sleep durations, the search results and scrape map used, and the
writer inputs). -/
structure RunTrace where
  chunks : List Chunk
  plannerCalls : Nat
  searchCalls : Nat
  sleeps : List Nat
  scrapeCalls : Nat
  searchResults : Option SearchResults
  scrapedMap : Option ScrapeMap
  writerInputs : List WriterInput
deriving DecidableEq, Repr

/-- The terminal message for a missing topic. -/
def noTopicMessage : PyStr :=
  String.toList "Please provide a topic or some ideas to get started."

/-- The terminal message when no articles were found. -/
def noArticlesMessage (cleanedTopic : PyStr) : PyStr :=
  String.toList "Sorry, could not find any articles on the topic: " ++ cleanedTopic

/-- `BlogPostGenerator.run(topic, style_guidelines=None, include_sources=True)`.
`topic = none` models Python `topic=None`; `raw_topic = topic or ""`. -/
def run (env : RunEnv) (topic : Option PyStr) (style_guidelines : Option PyStr)
    (include_sources : Bool) : RunTrace :=
  let rawTopic := topic.getD []
  let cleanedTopic := sanitize_user_text rawTopic 600
  if cleanedTopic = [] then
    { chunks := [{ content := some noTopicMessage, sources := [] }]
      plannerCalls := 0, searchCalls := 0, sleeps := [], scrapeCalls := 0
      searchResults := none, scrapedMap := none, writerInputs := [] }
  else
    let cleanedGuidelines := sanitize_user_text (style_guidelines.getD []) 1500
    let planned := build_search_query env.planner rawTopic cleanedTopic cleanedGuidelines
    let so := get_search_results (env.search planned.1) 3
    match so.result with
    | none =>
      { chunks := [{ content := some (noArticlesMessage cleanedTopic), sources := [] }]
        plannerCalls := planned.2, searchCalls := so.calls, sleeps := so.sleeps
        scrapeCalls := 0, searchResults := none, scrapedMap := none, writerInputs := [] }
    | some searchResults =>
      if searchResults.articles.length = 0 then
        { chunks := [{ content := some (noArticlesMessage cleanedTopic), sources := [] }]
          plannerCalls := planned.2, searchCalls := so.calls, sleeps := so.sleeps
          scrapeCalls := 0, searchResults := some searchResults, scrapedMap := none
          writerInputs := [] }
      else
        let sm := scrape_articles env.scraper searchResults
        let scrapedArticles :=
          if sm.1 = [] then searchResults.articles.map fun a => (a.url, placeholderOf a)
          else sm.1
        let writerInput : WriterInput :=
          { topic := cleanedTopic, style_guidelines := cleanedGuidelines
            include_sources := include_sources
            articles := dictValues scrapedArticles }
        { chunks := env.writer writerInput
          plannerCalls := planned.2, searchCalls := so.calls, sleeps := so.sleeps
          scrapeCalls := sm.2, searchResults := some searchResults
          scrapedMap := some sm.1, writerInputs := [writerInput] }

/-! ## `app.py` `generate_blog`: stream aggregation -/

/-- The `for response in blog_post` loop, content side: concatenate truthy
contents, each followed by `"\n"`. -/
def collectBody (chunks : List Chunk) : PyStr :=
  chunks.foldl
    (fun acc c =>
      match c.content with
      | some str => if str = [] then acc else acc ++ str ++ ['\n']
      | none => acc)
    []

/-- The source-collection side of the loop, before the final
`sorted(sources)`: all sources attached to any chunk, in encounter order. -/
def collectSources (chunks : List Chunk) : List PyStr :=
  chunks.foldl (fun acc c => acc ++ c.sources) []

/-- Lexicographic comparison of Python strings (`sorted` on `set` of `str`). -/
def strLe : PyStr → PyStr → Bool
  | [], _ => true
  | _ :: _, [] => false
  | a :: as_, b :: bs => if a = b then strLe as_ bs else decide (a < b)

/-- Insertion sort by `strLe`. -/
def insertSortedStr (x : PyStr) : List PyStr → List PyStr
  | [] => [x]
  | y :: rest => if strLe x y then x :: y :: rest else y :: insertSortedStr x rest

/-- `sorted(sources)` where `sources` is a Python `set`: the distinct
collected sources in ascending order. -/
def sortedSourceList (chunks : List Chunk) : List PyStr :=
  ((collectSources chunks).dedup).foldr insertSortedStr []

/-- `"\n".join(...)`. -/
def joinNewline : List PyStr → PyStr
  | [] => []
  | [x] => x
  | x :: y :: rest => x ++ '\n' :: joinNewline (y :: rest)

/-- The `"\n\n## Sources\n"` heading of `app.py`. -/
def sourcesHeading : PyStr := String.toList "\n\n## Sources\n"

/-- The assembled markdown document of `generate_blog`: the concatenated
contents, plus — only if `include_sources` and the source set is non-empty —
the heading and the sorted bulleted source list. -/
def generate_blog_document (include_sources : Bool) (chunks : List Chunk) : PyStr :=
  let finalOutput := collectBody chunks
  let sources := sortedSourceList chunks
  if include_sources && !(sources.isEmpty) then
    finalOutput ++ sourcesHeading ++
      joinNewline (sources.map fun src => String.toList "- " ++ src)
  else finalOutput

/-! # Theorems -/

/-! ## C7 / C10: empty or absent topic -/

/-- The trace of the validate-stage hard stop: a single fixed chunk, no
planner/search/scrape/writer activity. -/
def noTopicTrace : RunTrace :=
  { chunks := [{ content := some noTopicMessage, sources := [] }]
    plannerCalls := 0, searchCalls := 0, sleeps := [], scrapeCalls := 0
    searchResults := none, scrapedMap := none, writerInputs := [] }

/-- C7: for `topic = ""` (whose sanitized form is empty), `run` yields
exactly one chunk carrying the fixed please-provide-a-topic message and
terminates without any planner, search, scrape or writer call. -/
theorem run_empty_topic_single_chunk (env : RunEnv) (style : Option PyStr)
    (include_sources : Bool) :
    run env (some []) style include_sources = noTopicTrace := rfl

/-- C10: for an absent topic (`topic=None`), `run` does not raise: `topic or
""` normalises it to the empty string, so the trace coincides with the
`topic = ""` trace — the single no-topic chunk and no downstream calls. -/
theorem run_none_topic_like_empty (env : RunEnv) (style : Option PyStr)
    (include_sources : Bool) :
    run env none style include_sources = run env (some []) style include_sources ∧
    run env none style include_sources = noTopicTrace :=
  ⟨rfl, rfl⟩

/-! ## C3: the retry wrapper -/

/-- Did attempt `i` of the underlying search raise? -/
def attemptRaised (search : Nat → Except Unit SearchResults) (i : Nat) : Bool :=
  match search i with
  | .error _ => true
  | .ok _ => false

/-- Did attempt `i` fail in the sense of the retry loop (raise, or return an
empty result set)? -/
def attemptFailed (search : Nat → Except Unit SearchResults) (i : Nat) : Bool :=
  match search i with
  | .error _ => true
  | .ok r => r.articles.length == 0

/-- A search that always succeeds with zero articles. -/
def alwaysEmptySearch : Nat → Except Unit SearchResults := fun _ => .ok ⟨[]⟩

/-- C3 counterexample: the claim asserts a backoff sleep is applied between
attempts whenever an attempt fails, where failure includes an empty result
set.  Against a search that returns an empty result on every attempt, the
loop performs all three attempts and returns `none`, yet executes no sleep
at all — `time.sleep` sits only in the `except` branch, and an empty result
raises nothing. -/
theorem get_search_results_empty_results_never_sleep :
    get_search_results alwaysEmptySearch 3 =
      { result := none, calls := 3, sleeps := [] } ∧
    (∀ i, i < 3 → attemptFailed alwaysEmptySearch i = true) := by
  constructor
  · rfl
  · intro i _
    rfl

/-- The retry loop, started at `attempt` with `fuel` attempts left: it calls
the search at most `fuel` times, sleeps `min(2*(i+1), 5)` exactly after the
performed attempts `i` that raised, and returns `none` exactly when every
attempt in its window fails. -/
theorem get_search_results_aux_spec (search : Nat → Except Unit SearchResults) :
    ∀ (fuel attempt : Nat),
    (get_search_results_aux search fuel attempt).calls ≤ fuel ∧
    (get_search_results_aux search fuel attempt).sleeps =
      ((List.range' attempt (get_search_results_aux search fuel attempt).calls).filter
        (attemptRaised search)).map (fun i => min (2 * (i + 1)) 5) ∧
    ((get_search_results_aux search fuel attempt).result = none ↔
      ∀ i, attempt ≤ i → i < attempt + fuel → attemptFailed search i = true) := by
  intro fuel
  induction fuel with
  | zero =>
    intro attempt
    refine ⟨Nat.le_refl 0, rfl, ?_⟩
    simp [get_search_results_aux]
    omega
  | succ fuel ih =>
    intro attempt
    obtain ⟨ihCalls, ihSleeps, ihNone⟩ := ih (attempt + 1)
    cases hs : search attempt with
    | ok res =>
      by_cases hlen : 0 < res.articles.length
      · have e : get_search_results_aux search (fuel + 1) attempt =
            ⟨some res, 1, []⟩ := by
          simp [get_search_results_aux, hs, hlen]
        rw [e]
        have hraise : attemptRaised search attempt = false := by
          simp [attemptRaised, hs]
        have hfail : attemptFailed search attempt = false := by
          simp only [attemptFailed, hs, beq_eq_false_iff_ne, ne_eq]
          omega
        refine ⟨Nat.succ_le_succ (Nat.zero_le fuel), ?_, ?_⟩
        · rw [List.range'_one, List.filter_cons_of_neg (by simp [hraise]),
            List.filter_nil, List.map_nil]
        · simp only []
          constructor
          · intro h
            exact absurd h (by simp)
          · intro h
            have h2 := h attempt (Nat.le_refl _) (by omega)
            rw [hfail] at h2
            exact absurd h2 (by simp)
      · have e : get_search_results_aux search (fuel + 1) attempt =
            ⟨(get_search_results_aux search fuel (attempt + 1)).result,
             (get_search_results_aux search fuel (attempt + 1)).calls + 1,
             (get_search_results_aux search fuel (attempt + 1)).sleeps⟩ := by
          simp [get_search_results_aux, hs, hlen]
        rw [e]
        have hraise : attemptRaised search attempt = false := by
          simp [attemptRaised, hs]
        have hfail : attemptFailed search attempt = true := by
          simp only [attemptFailed, hs, beq_iff_eq]
          omega
        refine ⟨Nat.succ_le_succ ihCalls, ?_, ?_⟩
        · rw [List.range'_succ, List.filter_cons_of_neg (by simp [hraise])]
          exact ihSleeps
        · simp only []
          rw [ihNone]
          constructor
          · intro h i h1 h2
            rcases Nat.eq_or_lt_of_le h1 with h1 | h1
            · exact h1 ▸ hfail
            · exact h i h1 (by omega)
          · intro h i h1 h2
            exact h i (by omega) (by omega)
    | error err =>
      have e : get_search_results_aux search (fuel + 1) attempt =
          ⟨(get_search_results_aux search fuel (attempt + 1)).result,
           (get_search_results_aux search fuel (attempt + 1)).calls + 1,
           min (2 * (attempt + 1)) 5 ::
             (get_search_results_aux search fuel (attempt + 1)).sleeps⟩ := by
        simp [get_search_results_aux, hs]
      rw [e]
      have hraise : attemptRaised search attempt = true := by
        simp [attemptRaised, hs]
      have hfail : attemptFailed search attempt = true := by
        simp [attemptFailed, hs]
      refine ⟨Nat.succ_le_succ ihCalls, ?_, ?_⟩
      · rw [List.range'_succ, List.filter_cons_of_pos (by simp [hraise]),
          List.map_cons]
        rw [ihSleeps]
      · simp only []
        rw [ihNone]
        constructor
        · intro h i h1 h2
          rcases Nat.eq_or_lt_of_le h1 with h1 | h1
          · exact h1 ▸ hfail
          · exact h i h1 (by omega)
        · intro h i h1 h2
          exact h i (by omega) (by omega)

/-- C3 amended: `get_search_results` calls the underlying search at most
`num_attempts` times; it sleeps `min(2 × attempt_number, 5)` exactly after
those performed attempts that raised an error — an attempt that merely
returns an empty result set retries immediately with no sleep — and it
returns none exactly when every attempt fails (raises or comes back
empty). -/
theorem get_search_results_retry_contract (search : Nat → Except Unit SearchResults)
    (num_attempts : Nat) :
    (get_search_results search num_attempts).calls ≤ num_attempts ∧
    (get_search_results search num_attempts).sleeps =
      ((List.range (get_search_results search num_attempts).calls).filter
        (attemptRaised search)).map (fun i => min (2 * (i + 1)) 5) ∧
    ((get_search_results search num_attempts).result = none ↔
      ∀ i, i < num_attempts → attemptFailed search i = true) := by
  obtain ⟨h1, h2, h3⟩ := get_search_results_aux_spec search num_attempts 0
  refine ⟨h1, ?_, ?_⟩
  · rw [List.range_eq_range']
    exact h2
  · rw [get_search_results, h3]
    constructor
    · intro h i hi
      exact h i (Nat.zero_le i) (by omega)
    · intro h i _ hi
      exact h i (by omega)

/-! ## C2: the structured-parse dedup contract -/

/-- The accumulation loop equals first-occurrence dedup of the accepted
items plus the break-after-append truncation: starting from `acc`, it
appends the deduplicated remainder, cut off at `max (maxResults -
acc.length) 1` items (the length check runs only after an append, which is
what allows one extra article when `maxResults ≤ len(acc)` — reachable at
the top level only for `maxResults = 0`, where the final `[:max_results]`
discards it again). -/
theorem xmlLoop_eq_dedup (u : PyStr → PyStr) (items : List XmlItem) :
    ∀ (seen : List PyStr) (acc : List NewsArticle) (maxResults : Nat),
    xmlLoop u items seen acc maxResults =
      acc ++ (dedupByUrl seen (acceptedArticles u items)).take
        (max (maxResults - acc.length) 1) := by
  induction items with
  | nil =>
    intro seen acc maxResults
    simp [xmlLoop, acceptedArticles, dedupByUrl]
  | cons it rest ih =>
    intro seen acc maxResults
    cases hart : xmlArticle u it with
    | none =>
      rw [xmlLoop, hart]
      have : acceptedArticles u (it :: rest) = acceptedArticles u rest := by
        simp [acceptedArticles, List.filterMap_cons, hart]
      rw [this]
      exact ih seen acc maxResults
    | some art =>
      have haccept : acceptedArticles u (it :: rest) =
          art :: acceptedArticles u rest := by
        simp [acceptedArticles, List.filterMap_cons, hart]
      by_cases hseen : art.url ∈ seen
      · simp only [xmlLoop, hart]
        rw [if_pos hseen, haccept, dedupByUrl, if_pos hseen]
        exact ih seen acc maxResults
      · simp only [xmlLoop, hart]
        rw [if_neg hseen, haccept, dedupByUrl, if_neg hseen]
        by_cases hbreak : maxResults ≤ (acc ++ [art]).length
        · rw [if_pos hbreak]
          have hmax : max (maxResults - acc.length) 1 = 1 := by
            rw [List.length_append, List.length_cons, List.length_nil] at hbreak
            omega
          rw [hmax, List.take_succ_cons, List.take_zero]
        · rw [if_neg hbreak]
          rw [ih (art.url :: seen) (acc ++ [art]) maxResults]
          rw [List.length_append, List.length_cons, List.length_nil] at hbreak
          have hgt : acc.length + 1 < maxResults := by omega
          have h1 : max (maxResults - (acc ++ [art]).length) 1 =
              maxResults - acc.length - 1 := by
            rw [List.length_append, List.length_cons, List.length_nil]
            omega
          have h2 : max (maxResults - acc.length) 1 = maxResults - acc.length := by
            omega
          obtain ⟨k, hk⟩ : ∃ k, maxResults - acc.length = k + 1 :=
            ⟨maxResults - acc.length - 1, by omega⟩
          rw [h1, h2, hk, List.take_succ_cons, List.append_assoc]
          simp [hk]

/-- Everything `dedupByUrl seen l` keeps has a url outside `seen`. -/
theorem mem_dedupByUrl_not_seen (l : List NewsArticle) :
    ∀ (seen : List PyStr) (a : NewsArticle), a ∈ dedupByUrl seen l → a.url ∉ seen := by
  induction l with
  | nil =>
    intro seen a ha
    simp [dedupByUrl] at ha
  | cons b rest ih =>
    intro seen a ha
    rw [dedupByUrl] at ha
    by_cases hb : b.url ∈ seen
    · rw [if_pos hb] at ha
      exact ih seen a ha
    · rw [if_neg hb] at ha
      rcases List.mem_cons.mp ha with h | h
      · exact h ▸ hb
      · intro hmem
        exact ih (b.url :: seen) a h (List.mem_cons_of_mem _ hmem)

/-- The urls of `dedupByUrl seen l` are pairwise distinct. -/
theorem dedupByUrl_urls_nodup (l : List NewsArticle) :
    ∀ (seen : List PyStr), ((dedupByUrl seen l).map (fun a => a.url)).Nodup := by
  induction l with
  | nil =>
    intro seen
    simp [dedupByUrl]
  | cons b rest ih =>
    intro seen
    rw [dedupByUrl]
    by_cases hb : b.url ∈ seen
    · rw [if_pos hb]
      exact ih seen
    · rw [if_neg hb]
      rw [List.map_cons, List.nodup_cons]
      refine ⟨?_, ih (b.url :: seen)⟩
      intro hmem
      rcases List.mem_map.mp hmem with ⟨a, hmem2, hurl⟩
      exact mem_dedupByUrl_not_seen rest (b.url :: seen) a hmem2
        (hurl ▸ List.mem_cons_self _ _)

/-- The fallback loop never accumulates an article (its title is always
`None` because the miswritten pattern cannot match, see C8): a non-raising
run returns its accumulator unchanged. -/
theorem fallbackLoop_ok (items : List PyStr) : ∀ (seen : List PyStr)
    (acc : List NewsArticle) (maxResults : Nat) (r : List NewsArticle),
    fallbackLoop items seen acc maxResults = .ok r → r = acc := by
  induction items with
  | nil =>
    intro seen acc maxResults r h
    simp only [fallbackLoop] at h
    exact (Except.ok.inj h).symm
  | cons it rest ih =>
    intro seen acc maxResults r h
    simp only [fallbackLoop] at h
    by_cases h1 : hasBuggyTitleMatch it = true
    · rw [if_pos h1] at h
      exact absurd h (by simp)
    · rw [if_neg h1] at h
      by_cases h2 : hasBuggyDescMatch it = true
      · rw [if_pos h2] at h
        exact absurd h (by simp)
      · rw [if_neg h2] at h
        cases hu : linkFirstMatch it with
        | none =>
          rw [hu] at h
          exact ih seen acc maxResults r h
        | some u =>
          rw [hu] at h
          exact ih seen acc maxResults r h

/-- C2: for every feed (every parsed item list) the structured-parse branch
of `_search_google_news_rss` returns the accepted items deduplicated by url
— first occurrence in feed order wins, relative order of first occurrences
preserved (that is exactly `dedupByUrl`) — truncated to `max_results`; in
particular each url appears at most once and at most `max_results` articles
are returned.  Holds for every `html.unescape` behaviour. -/
theorem search_xml_dedup_contract (unescape : PyStr → PyStr) (items : List XmlItem)
    (maxResults : Nat) :
    (search_google_news_rss_xml unescape items maxResults).articles =
      (dedupByUrl [] (acceptedArticles unescape items)).take maxResults ∧
    (((search_google_news_rss_xml unescape items maxResults).articles.map
        (fun a => a.url)).Nodup) ∧
    (search_google_news_rss_xml unescape items maxResults).articles.length ≤
      maxResults ∧
    (∀ (feed : PyStr) (res : SearchResults),
      search_google_news_rss_fallback feed maxResults = .ok res → res.articles = []) := by
  have he : (search_google_news_rss_xml unescape items maxResults).articles =
      (dedupByUrl [] (acceptedArticles unescape items)).take maxResults := by
    show (xmlLoop unescape items [] [] maxResults).take maxResults = _
    rw [xmlLoop_eq_dedup unescape items [] [] maxResults]
    rw [List.nil_append, List.take_take]
    congr 1
    simp only [List.length_nil, Nat.sub_zero]
    omega
  refine ⟨he, ?_, ?_, ?_⟩
  · rw [he]
    refine List.Nodup.sublist (List.Sublist.map _ (List.take_sublist _ _))
      (dedupByUrl_urls_nodup (acceptedArticles unescape items) [])
  · rw [he]
    have := List.length_take maxResults (dedupByUrl [] (acceptedArticles unescape items))
    omega
  · intro feed res hres
    rw [search_google_news_rss_fallback] at hres
    cases hloop : fallbackLoop (findItems feed) [] [] maxResults with
    | error e =>
      rw [hloop] at hres
      exact absurd hres (by simp [Except.map])
    | ok arts =>
      rw [hloop] at hres
      have harts : arts = [] := fallbackLoop_ok (findItems feed) [] [] maxResults arts hloop
      rw [harts] at hres
      have : res = ⟨([] : List NewsArticle).take maxResults⟩ := by
        simpa [Except.map] using hres.symm
      rw [this]
      simp

/-! ## C5: the sanitizer

Truncation is the one step of `_sanitize_user_text` that can break the
"collapsed and stripped" shape: cutting `"a b"` at 2 gives `"a "`, which a
second sanitize turns into `"a"`.  The lemmas below show this is the only
possible discrepancy: a sanitized string has no control characters, no
whitespace other than single interior spaces, and no leading whitespace, so
re-sanitizing equals stripping trailing whitespace. -/

/-- No two adjacent whitespace characters. -/
def NoWsRun (l : PyStr) : Prop :=
  List.Chain' (fun a b => ¬(pySpaceChar a = true ∧ pySpaceChar b = true)) l

theorem noWsRun_reverse {l : PyStr} (h : NoWsRun l) : NoWsRun l.reverse := by
  rw [NoWsRun, List.chain'_reverse]
  exact List.Chain'.imp (fun a b hab h2 => hab ⟨h2.2, h2.1⟩) h

/-- Everything `collapseWs` emits is an input character or a space. -/
theorem collapseWs_mem : ∀ (l : PyStr), ∀ c ∈ collapseWs l, c ∈ l ∨ c = ' '
  | [] => by simp [collapseWs]
  | [d] => by
    intro c hc
    rw [collapseWs] at hc
    by_cases hd : pySpaceChar d
    · rw [if_pos hd] at hc
      right
      simpa using hc
    · rw [if_neg hd] at hc
      left
      simpa using hc
  | c0 :: d :: rest => by
    intro c hc
    rw [collapseWs] at hc
    by_cases h2 : pySpaceChar c0 && pySpaceChar d
    · rw [if_pos h2] at hc
      rcases collapseWs_mem (d :: rest) c hc with h | h
      · exact Or.inl (List.mem_cons_of_mem _ h)
      · exact Or.inr h
    · rw [if_neg h2] at hc
      rcases List.mem_cons.mp hc with h | h
      · by_cases hc0 : pySpaceChar c0
        · rw [if_pos hc0] at h
          exact Or.inr h
        · rw [if_neg hc0] at h
          exact Or.inl (h ▸ List.mem_cons_self _ _)
      · rcases collapseWs_mem (d :: rest) c h with h | h
        · exact Or.inl (List.mem_cons_of_mem _ h)
        · exact Or.inr h

/-- Whitespace surviving `collapseWs` is the single space. -/
theorem collapseWs_ws_space : ∀ (l : PyStr), ∀ c ∈ collapseWs l,
    pySpaceChar c = true → c = ' '
  | [] => by simp [collapseWs]
  | [d] => by
    intro c hc hws
    rw [collapseWs] at hc
    by_cases hd : pySpaceChar d
    · rw [if_pos hd] at hc
      simpa using hc
    · rw [if_neg hd] at hc
      have : c = d := by simpa using hc
      rw [this] at hws
      exact absurd hws (by simp [hd])
  | c0 :: d :: rest => by
    intro c hc hws
    rw [collapseWs] at hc
    by_cases h2 : pySpaceChar c0 && pySpaceChar d
    · rw [if_pos h2] at hc
      exact collapseWs_ws_space (d :: rest) c hc hws
    · rw [if_neg h2] at hc
      rcases List.mem_cons.mp hc with h | h
      · by_cases hc0 : pySpaceChar c0
        · rw [if_pos hc0] at h
          exact h
        · rw [if_neg hc0] at h
          rw [h] at hws
          exact absurd hws (by simp [hc0])
      · exact collapseWs_ws_space (d :: rest) c h hws

/-- The head that `collapseWs` produces on a non-empty input. -/
theorem collapseWs_head : ∀ (rest : PyStr) (d : Char),
    (collapseWs (d :: rest)).head? = some (if pySpaceChar d then ' ' else d)
  | [], d => by
    rw [collapseWs]
    by_cases hd : pySpaceChar d
    · rw [if_pos hd, if_pos hd]
      rfl
    · rw [if_neg hd, if_neg hd]
      rfl
  | e :: rest', d => by
    rw [collapseWs]
    by_cases h2 : pySpaceChar d && pySpaceChar e
    · rw [if_pos h2]
      rw [collapseWs_head rest' e]
      obtain ⟨hd, he⟩ : pySpaceChar d = true ∧ pySpaceChar e = true := by
        simpa using h2
      rw [hd, he]
      simp
    · rw [if_neg h2]
      rfl

/-- `collapseWs` never emits two adjacent whitespace characters. -/
theorem collapseWs_noWsRun : ∀ (l : PyStr), NoWsRun (collapseWs l)
  | [] => by simp [collapseWs, NoWsRun]
  | [d] => by
    rw [collapseWs]
    by_cases hd : pySpaceChar d
    · rw [if_pos hd]
      exact List.chain'_singleton _
    · rw [if_neg hd]
      exact List.chain'_singleton _
  | c0 :: d :: rest => by
    rw [collapseWs]
    by_cases h2 : pySpaceChar c0 && pySpaceChar d
    · rw [if_pos h2]
      exact collapseWs_noWsRun (d :: rest)
    · rw [if_neg h2]
      rw [NoWsRun, List.chain'_cons']
      refine ⟨?_, collapseWs_noWsRun (d :: rest)⟩
      intro y hy
      rw [collapseWs_head rest d] at hy
      have hy2 : y = if pySpaceChar d then ' ' else d := by
        simpa using hy.symm
      by_cases hd : pySpaceChar d
      · have hc0 : pySpaceChar c0 = false := by
          by_contra hcc
          have hcc2 : pySpaceChar c0 = true := by simpa using hcc
          exact h2 (by simp [hcc2, hd])
        rw [if_neg (by simp [hc0] : ¬ pySpaceChar c0 = true)]
        intro hcontra
        rw [hc0] at hcontra
        exact Bool.false_ne_true hcontra.1
      · rw [hy2, if_neg hd]
        intro hcontra
        exact hd hcontra.2

/-- On a string with no whitespace runs and only plain spaces as
whitespace, `collapseWs` is the identity. -/
theorem collapseWs_eq_self : ∀ (l : PyStr), NoWsRun l →
    (∀ c ∈ l, pySpaceChar c = true → c = ' ') → collapseWs l = l
  | [] => by
    intro _ _
    rfl
  | [d] => by
    intro _ hsp
    rw [collapseWs]
    by_cases hd : pySpaceChar d
    · rw [if_pos hd, hsp d (List.mem_singleton_self d) (by simpa using hd)]
    · rw [if_neg hd]
  | c0 :: d :: rest => by
    intro hrun hsp
    have hnotboth : ¬(pySpaceChar c0 = true ∧ pySpaceChar d = true) := by
      have := (List.chain'_cons'.mp hrun).1
      exact this d rfl
    have h2 : ¬(pySpaceChar c0 && pySpaceChar d) = true := by
      simp only [Bool.and_eq_true]
      exact hnotboth
    rw [collapseWs, if_neg h2]
    have htail : collapseWs (d :: rest) = d :: rest :=
      collapseWs_eq_self (d :: rest) (List.chain'_cons'.mp hrun).2
        (fun c hc => hsp c (List.mem_cons_of_mem _ hc))
    rw [htail]
    by_cases hc0 : pySpaceChar c0
    · rw [if_pos hc0, hsp c0 (List.mem_cons_self _ _) (by simpa using hc0)]
    · rw [if_neg hc0]

theorem mem_lstripWs {l : PyStr} {c : Char} (h : c ∈ lstripWs l) : c ∈ l :=
  (List.dropWhile_suffix _).subset h

theorem mem_rstripWs {l : PyStr} {c : Char} (h : c ∈ rstripWs l) : c ∈ l := by
  rw [rstripWs, List.mem_reverse] at h
  exact List.mem_reverse.mp ((List.dropWhile_suffix _).subset h)

theorem mem_pyStripWs {l : PyStr} {c : Char} (h : c ∈ pyStripWs l) : c ∈ l :=
  mem_lstripWs (mem_rstripWs h)

theorem noWsRun_lstripWs {l : PyStr} (h : NoWsRun l) : NoWsRun (lstripWs l) :=
  List.Chain'.suffix h (List.dropWhile_suffix _)

theorem noWsRun_rstripWs {l : PyStr} (h : NoWsRun l) : NoWsRun (rstripWs l) :=
  noWsRun_reverse (List.Chain'.suffix (noWsRun_reverse h) (List.dropWhile_suffix _))

theorem noWsRun_take {l : PyStr} (n : Nat) (h : NoWsRun l) : NoWsRun (l.take n) :=
  List.Chain'.take h n

/-- `rstripWs l` is an initial segment of `l`. -/
theorem rstripWs_starts (l : PyStr) : rstripWs l <+: l := by
  have h1 : l.reverse.dropWhile (fun c => pySpaceChar c) <:+ l.reverse :=
    List.dropWhile_suffix _
  have h2 := List.reverse_prefix.mpr h1
  rw [List.reverse_reverse] at h2
  exact h2

theorem head?_of_starts {l1 l2 : PyStr} {c : Char} (h : l1 <+: l2)
    (hh : l1.head? = some c) : l2.head? = some c := by
  obtain ⟨t, rfl⟩ := h
  cases l1 with
  | nil => exact absurd hh (by simp)
  | cons a r =>
    simpa using hh

theorem head?_take {l : PyStr} {n : Nat} {c : Char}
    (h : (l.take n).head? = some c) : l.head? = some c := by
  cases n with
  | zero => exact absurd h (by simp)
  | succ m =>
    cases l with
    | nil => exact absurd h (by simp)
    | cons a r => simpa using h

theorem lstripWs_eq_self {l : PyStr}
    (h : ∀ c, l.head? = some c → pySpaceChar c = false) : lstripWs l = l := by
  cases l with
  | nil => rfl
  | cons a r =>
    rw [lstripWs, List.dropWhile_cons, if_neg (by simp [h a rfl])]

theorem rstripWs_length_le (l : PyStr) : (rstripWs l).length ≤ l.length := by
  rw [rstripWs, List.length_reverse]
  calc (l.reverse.dropWhile fun c => pySpaceChar c).length
      ≤ l.reverse.length := (List.dropWhile_suffix _).sublist.length_le
    _ = l.length := List.length_reverse l

theorem pyStripWs_head_not_ws {l : PyStr} {c : Char}
    (h : (pyStripWs l).head? = some c) : pySpaceChar c = false := by
  have h2 : (lstripWs l).head? = some c :=
    head?_of_starts (rstripWs_starts (lstripWs l)) h
  have h3 := List.head?_dropWhile_not (fun c => pySpaceChar c) l
  rw [lstripWs] at h2
  rw [h2] at h3
  simpa using h3

/-- The shape invariant of a sanitized string: no stripped control
characters, all whitespace is a single interior space, and it does not start
with whitespace. -/
theorem sanitized_shape (s : PyStr) (n : Nat) :
    (∀ c ∈ sanitize_user_text s n, isCtlStripped c = false) ∧
    (∀ c ∈ sanitize_user_text s n, pySpaceChar c = true → c = ' ') ∧
    NoWsRun (sanitize_user_text s n) ∧
    (∀ c, (sanitize_user_text s n).head? = some c → pySpaceChar c = false) := by
  have hmem : ∀ c ∈ sanitize_user_text s n, c ∈ collapseWs (stripCtl s) := by
    intro c hc
    exact mem_pyStripWs (List.take_subset _ _ hc)
  refine ⟨?_, ?_, ?_, ?_⟩
  · intro c hc
    rcases collapseWs_mem (stripCtl s) c (hmem c hc) with h | h
    · have := (List.mem_filter.mp h).2
      simpa using this
    · rw [h]
      decide
  · intro c hc hws
    exact collapseWs_ws_space (stripCtl s) c (hmem c hc) hws
  · exact noWsRun_take n (noWsRun_rstripWs (noWsRun_lstripWs
      (collapseWs_noWsRun (stripCtl s))))
  · intro c hc
    exact pyStripWs_head_not_ws (head?_take hc)

/-- C5 counterexample: `_sanitize_user_text` is not idempotent.  For
`s = "a b"` and `max_length = 2` the first pass collapses and strips nothing
but the truncation keeps `"a "`, whose trailing space the second pass
strips, yielding `"a"`. -/
theorem sanitize_not_idempotent :
    sanitize_user_text (String.toList "a b") 2 = String.toList "a " ∧
    sanitize_user_text (String.toList "a ") 2 = String.toList "a" ∧
    sanitize_user_text (sanitize_user_text (String.toList "a b") 2) 2 ≠
      sanitize_user_text (String.toList "a b") 2 := by
  refine ⟨by decide, by decide, by decide⟩

/-- C5 amended: a second sanitize differs from the first only by the single
trailing space that truncation may have produced:
`sanitize(sanitize(s, n), n) = rstrip(sanitize(s, n))` for all `s` and `n`.
In particular sanitize is idempotent on every input whose sanitized form has
no trailing whitespace, e.g. whenever no truncation occurred. -/
theorem sanitize_resanitize_rstrip (s : PyStr) (n : Nat) :
    sanitize_user_text (sanitize_user_text s n) n =
      rstripWs (sanitize_user_text s n) := by
  obtain ⟨hctl, hsp, hrun, hhead⟩ := sanitized_shape s n
  have hlen : (sanitize_user_text s n).length ≤ n := by
    show ((pyStripWs (collapseWs (stripCtl s))).take n).length ≤ n
    rw [List.length_take]
    omega
  generalize ht : sanitize_user_text s n = t at hctl hsp hrun hhead hlen
  show (pyStripWs (collapseWs (stripCtl t))).take n = rstripWs t
  have h1 : stripCtl t = t := by
    rw [stripCtl]
    rw [List.filter_eq_self]
    intro a ha
    simp [hctl a ha]
  rw [h1, collapseWs_eq_self t hrun hsp]
  show (rstripWs (lstripWs t)).take n = rstripWs t
  rw [lstripWs_eq_self hhead]
  exact List.take_of_length_le (le_trans (rstripWs_length_le t) hlen)

/-! ## C4 / C6: the scrape map -/

/-- `dict[k] = v` on a key-absent dict is an append. -/
theorem dictAssign_of_not_contains {m : ScrapeMap} {k : PyStr} (v : ScrapedArticle)
    (h : dictContains m k = false) : dictAssign m k v = m ++ [(k, v)] := by
  rw [dictAssign, h]
  simp

/-- Assignment under a non-matching head commutes with `cons`. -/
theorem dictAssign_cons {p : PyStr × ScrapedArticle} {m : ScrapeMap} {k : PyStr}
    (v : ScrapedArticle) (h : (p.1 == k) = false) :
    dictAssign (p :: m) k v = p :: dictAssign m k v := by
  have hcc : dictContains (p :: m) k = dictContains m k := by
    rw [dictContains, dictContains, List.any_cons, h, Bool.false_or]
  cases hc : dictContains m k with
  | false =>
    rw [dictAssign, hcc, hc, dictAssign, hc]
    rw [if_neg (by simp), if_neg (by simp)]
    rfl
  | true =>
    rw [dictAssign, hcc, hc, dictAssign, hc]
    rw [if_pos rfl, if_pos rfl, List.map_cons, if_neg (by simp [h])]

/-- Looking up the assigned key yields the assigned value. -/
theorem dictLookup_assign (m : ScrapeMap) (k : PyStr) (v : ScrapedArticle) :
    dictLookup (dictAssign m k v) k = some v := by
  induction m with
  | nil => simp [dictAssign, dictContains, dictLookup]
  | cons p m ih =>
    cases hp : (p.1 == k) with
    | true =>
      have hc : dictContains (p :: m) k = true := by
        simp [dictContains, List.any_cons, hp]
      rw [dictAssign, hc, if_pos rfl, List.map_cons, if_pos hp]
      simp [dictLookup]
    | false =>
      rw [dictAssign_cons v hp]
      rw [dictLookup, List.find?_cons_of_neg _ (by simp [hp])]
      exact ih

/-- Replacing the entries at key `k` leaves lookups of other keys alone. -/
theorem dictLookup_map_replace (m : ScrapeMap) {k k2 : PyStr} (v : ScrapedArticle)
    (h : (k == k2) = false) :
    dictLookup (m.map fun p => if p.1 == k then (k, v) else p) k2 = dictLookup m k2 := by
  induction m with
  | nil => rfl
  | cons q m ih =>
    cases hq : (q.1 == k) with
    | true =>
      have hqk : q.1 = k := by simpa using hq
      rw [List.map_cons, if_pos hq]
      rw [dictLookup, List.find?_cons_of_neg _ (by simp [h]), dictLookup,
        List.find?_cons_of_neg _ (by simp [hqk]; simpa using h)]
      exact ih
    | false =>
      rw [List.map_cons, if_neg (by simp [hq])]
      cases hq2 : (q.1 == k2) with
      | true =>
        rw [dictLookup, List.find?_cons_of_pos _ (by simp [hq2]), dictLookup,
          List.find?_cons_of_pos _ (by simp [hq2])]
      | false =>
        rw [dictLookup, List.find?_cons_of_neg _ (by simp [hq2]), dictLookup,
          List.find?_cons_of_neg _ (by simp [hq2])]
        exact ih

/-- Looking up a different key is unaffected by an assignment. -/
theorem dictLookup_assign_ne (m : ScrapeMap) {k k2 : PyStr} (v : ScrapedArticle)
    (h : k2 ≠ k) : dictLookup (dictAssign m k v) k2 = dictLookup m k2 := by
  have hbeq : (k == k2) = false := by
    simp
    exact fun he => h he.symm
  rw [dictAssign]
  cases hc : dictContains m k with
  | true =>
    rw [if_pos rfl]
    exact dictLookup_map_replace m v hbeq
  | false =>
    rw [if_neg (by simp)]
    rw [dictLookup, List.find?_append, dictLookup]
    have : List.find? (fun p => p.1 == k2) [(k, v)] = none := by
      simp [List.find?_cons_of_neg, hbeq]
    rw [this, Option.or_none]

/-- Replacing the entries at a key leaves the key list unchanged. -/
theorem dictKeys_replace (m : ScrapeMap) (k : PyStr) (v : ScrapedArticle) :
    ((m.map fun p => if p.1 == k then (k, v) else p).map fun p => p.1) =
      m.map fun p => p.1 := by
  rw [List.map_map]
  refine List.map_congr_left ?_
  intro p _
  by_cases hpk : (p.1 == k) = true
  · have h1 : p.1 = k := by simpa using hpk
    simp [Function.comp, hpk, h1]
  · simp [Function.comp, Bool.eq_false_iff.mpr hpk]

/-- Containment only depends on the key list. -/
theorem dictContains_keys (m : ScrapeMap) (k : PyStr) :
    dictContains m k = (m.map fun p => p.1).any fun x => x == k := by
  induction m with
  | nil => rfl
  | cons p m ih =>
    rw [dictContains, List.any_cons, List.map_cons, List.any_cons, ← dictContains, ih]

/-- An assignment preserves key containment. -/
theorem dictContains_assign {m : ScrapeMap} {k k2 : PyStr} (v : ScrapedArticle)
    (h : dictContains m k2 = true) : dictContains (dictAssign m k v) k2 = true := by
  rw [dictAssign]
  cases hc : dictContains m k with
  | true =>
    rw [if_pos rfl]
    rw [dictContains_keys, dictKeys_replace, ← dictContains_keys]
    exact h
  | false =>
    rw [if_neg (by simp)]
    rw [dictContains, List.any_append]
    rw [dictContains] at h
    simp [h]

/-- Membership in an assigned dict. -/
theorem mem_dictAssign {m : ScrapeMap} {k : PyStr} {v : ScrapedArticle}
    {p : PyStr × ScrapedArticle} (h : p ∈ dictAssign m k v) : p ∈ m ∨ p = (k, v) := by
  rw [dictAssign] at h
  by_cases hc : dictContains m k = true
  · rw [if_pos hc] at h
    rcases List.mem_map.mp h with ⟨q, hq, hfq⟩
    by_cases hqk : (q.1 == k) = true
    · rw [if_pos hqk] at hfq
      exact Or.inr hfq.symm
    · rw [if_neg hqk] at hfq
      exact Or.inl (hfq ▸ hq)
  · rw [if_neg hc] at h
    rcases List.mem_append.mp h with h | h
    · exact Or.inl h
    · exact Or.inr (by simpa using h)

/-- Assignments keep the keys pairwise distinct. -/
theorem dictAssign_keys_nodup {m : ScrapeMap} {k : PyStr} (v : ScrapedArticle)
    (h : (m.map fun p => p.1).Nodup) : ((dictAssign m k v).map fun p => p.1).Nodup := by
  rw [dictAssign]
  cases hc : dictContains m k with
  | true =>
    rw [if_pos rfl]
    rw [dictKeys_replace]
    exact h
  | false =>
    rw [if_neg (by simp)]
    rw [List.map_append, List.nodup_append]
    refine ⟨h, by simp, ?_⟩
    intro x hx
    simp only [List.map_cons, List.map_nil, List.mem_singleton]
    intro hxk
    rw [dictContains] at hc
    rcases List.mem_map.mp hx with ⟨q, hq, hq1⟩
    have hfalse := (List.any_eq_false.mp hc) q hq
    rw [hq1, hxk] at hfalse
    simp at hfalse

/-- The assigned key is contained afterwards. -/
theorem dictContains_assign_self (m : ScrapeMap) (k : PyStr) (v : ScrapedArticle) :
    dictContains (dictAssign m k v) k = true := by
  rw [dictAssign]
  cases hc : dictContains m k with
  | true =>
    rw [if_pos rfl, dictContains_keys, dictKeys_replace, ← dictContains_keys]
    exact hc
  | false =>
    rw [if_neg (by simp), dictContains, List.any_append]
    simp

/-- Containment of a different key is unaffected by an assignment. -/
theorem dictContains_assign_ne (m : ScrapeMap) {k k2 : PyStr} (v : ScrapedArticle)
    (h : k2 ≠ k) : dictContains (dictAssign m k v) k2 = dictContains m k2 := by
  rw [dictAssign]
  cases hc : dictContains m k with
  | true =>
    rw [if_pos rfl, dictContains_keys, dictKeys_replace, ← dictContains_keys]
  | false =>
    rw [if_neg (by simp), dictContains, List.any_append, dictContains]
    have : List.any [(k, v)] (fun p => p.1 == k2) = false := by
      simp
      exact fun he => h he.symm
    rw [this, Bool.or_false]

/-- Unfolding `scrape_articles_loop`: cached url. -/
theorem scrape_loop_cons_skip {scraper : NewsArticle → Option ScrapedArticle}
    {a : NewsArticle} {rest : List NewsArticle} {m : ScrapeMap}
    (h : dictContains m a.url = true) :
    scrape_articles_loop scraper (a :: rest) m = scrape_articles_loop scraper rest m := by
  simp only [scrape_articles_loop]
  rw [if_pos h]

/-- Unfolding `scrape_articles_loop`: successful scrape. -/
theorem scrape_loop_cons_found {scraper : NewsArticle → Option ScrapedArticle}
    {a : NewsArticle} {rest : List NewsArticle} {m : ScrapeMap} {sa : ScrapedArticle}
    (h : dictContains m a.url = false) (hs : scraper a = some sa) :
    scrape_articles_loop scraper (a :: rest) m =
      ((scrape_articles_loop scraper rest (dictAssign m sa.url sa)).1,
       (scrape_articles_loop scraper rest (dictAssign m sa.url sa)).2 + 1) := by
  simp only [scrape_articles_loop]
  rw [if_neg (by simp [h]), hs]

/-- Unfolding `scrape_articles_loop`: failed scrape. -/
theorem scrape_loop_cons_failed {scraper : NewsArticle → Option ScrapedArticle}
    {a : NewsArticle} {rest : List NewsArticle} {m : ScrapeMap}
    (h : dictContains m a.url = false) (hs : scraper a = none) :
    scrape_articles_loop scraper (a :: rest) m =
      ((scrape_articles_loop scraper rest m).1,
       (scrape_articles_loop scraper rest m).2 + 1) := by
  simp only [scrape_articles_loop]
  rw [if_neg (by simp [h]), hs]

/-- First-write-wins: once a url is in the map, the remaining batch never
changes its entry (the scraper's url-preservation is the spec's per-scrape
contract). -/
theorem scrape_loop_lookup_stable (scraper : NewsArticle → Option ScrapedArticle)
    (hpres : ∀ a sa, scraper a = some sa → sa.url = a.url) :
    ∀ (arts : List NewsArticle) (m : ScrapeMap) (k : PyStr),
      dictContains m k = true →
      dictLookup (scrape_articles_loop scraper arts m).1 k = dictLookup m k := by
  intro arts
  induction arts with
  | nil =>
    intro m k _
    rfl
  | cons a rest ih =>
    intro m k hk
    cases hc : dictContains m a.url with
    | true =>
      rw [scrape_loop_cons_skip hc]
      exact ih m k hk
    | false =>
      cases hs : scraper a with
      | none =>
        rw [scrape_loop_cons_failed hc hs]
        exact ih m k hk
      | some sa =>
        rw [scrape_loop_cons_found hc hs]
        have hne : k ≠ sa.url := by
          rw [hpres a sa hs]
          intro he
          rw [he] at hk
          rw [hk] at hc
          exact absurd hc (by simp)
        rw [ih (dictAssign m sa.url sa) k (dictContains_assign sa hk)]
        exact dictLookup_assign_ne m sa hne

/-- Every map entry produced by the batch loop comes from scraping some
input article, is keyed by the returned url, or was already present. -/
theorem scrape_loop_mem (scraper : NewsArticle → Option ScrapedArticle) :
    ∀ (arts : List NewsArticle) (m : ScrapeMap) (p : PyStr × ScrapedArticle),
      p ∈ (scrape_articles_loop scraper arts m).1 →
      p ∈ m ∨ ∃ a ∈ arts, scraper a = some p.2 ∧ p.1 = p.2.url := by
  intro arts
  induction arts with
  | nil =>
    intro m p hp
    exact Or.inl hp
  | cons a rest ih =>
    intro m p hp
    cases hc : dictContains m a.url with
    | true =>
      rw [scrape_loop_cons_skip hc] at hp
      rcases ih m p hp with h | ⟨b, hb, hsb, hurl⟩
      · exact Or.inl h
      · exact Or.inr ⟨b, List.mem_cons_of_mem _ hb, hsb, hurl⟩
    | false =>
      cases hs : scraper a with
      | none =>
        rw [scrape_loop_cons_failed hc hs] at hp
        rcases ih m p hp with h | ⟨b, hb, hsb, hurl⟩
        · exact Or.inl h
        · exact Or.inr ⟨b, List.mem_cons_of_mem _ hb, hsb, hurl⟩
      | some sa =>
        rw [scrape_loop_cons_found hc hs] at hp
        rcases ih (dictAssign m sa.url sa) p hp with h | ⟨b, hb, hsb, hurl⟩
        · rcases mem_dictAssign h with h2 | h2
          · exact Or.inl h2
          · refine Or.inr ⟨a, List.mem_cons_self _ _, ?_, ?_⟩
            · rw [h2]
              exact hs
            · rw [h2]
        · exact Or.inr ⟨b, List.mem_cons_of_mem _ hb, hsb, hurl⟩

/-- The batch loop keeps the map keys pairwise distinct. -/
theorem scrape_loop_keys_nodup (scraper : NewsArticle → Option ScrapedArticle) :
    ∀ (arts : List NewsArticle) (m : ScrapeMap),
      ((m.map fun p => p.1).Nodup) →
      (((scrape_articles_loop scraper arts m).1.map fun p => p.1).Nodup) := by
  intro arts
  induction arts with
  | nil =>
    intro m h
    exact h
  | cons a rest ih =>
    intro m h
    cases hc : dictContains m a.url with
    | true =>
      rw [scrape_loop_cons_skip hc]
      exact ih m h
    | false =>
      cases hs : scraper a with
      | none =>
        rw [scrape_loop_cons_failed hc hs]
        exact ih m h
      | some sa =>
        rw [scrape_loop_cons_found hc hs]
        exact ih (dictAssign m sa.url sa) (dictAssign_keys_nodup sa h)

/-- With pairwise-distinct input urls, the entry of a successfully scraped
article is its scrape result. -/
theorem scrape_loop_lookup_first (scraper : NewsArticle → Option ScrapedArticle)
    (hpres : ∀ a sa, scraper a = some sa → sa.url = a.url) :
    ∀ (arts : List NewsArticle) (m : ScrapeMap) (a : NewsArticle) (sa : ScrapedArticle),
      ((arts.map fun x => x.url).Nodup) → a ∈ arts → scraper a = some sa →
      dictContains m a.url = false →
      dictLookup (scrape_articles_loop scraper arts m).1 a.url = some sa := by
  intro arts
  induction arts with
  | nil =>
    intro m a sa _ hmem
    exact absurd hmem (List.not_mem_nil a)
  | cons b rest ih =>
    intro m a sa hnodup hmem hs hnc
    rcases List.mem_cons.mp hmem with rfl | hmem2
    · rw [scrape_loop_cons_found hnc hs]
      have hu : sa.url = a.url := hpres a sa hs
      rw [← hu] at hnc ⊢
      rw [scrape_loop_lookup_stable scraper hpres rest (dictAssign m sa.url sa) sa.url
        (dictContains_assign_self m sa.url sa)]
      exact dictLookup_assign m sa.url sa
    · have hbne : b.url ≠ a.url := by
        intro he
        have : a.url ∈ rest.map fun x => x.url := List.mem_map.mpr ⟨a, hmem2, rfl⟩
        rw [List.map_cons, List.nodup_cons] at hnodup
        exact hnodup.1 (he ▸ this)
      have hnodup2 : ((rest.map fun x => x.url).Nodup) := by
        rw [List.map_cons, List.nodup_cons] at hnodup
        exact hnodup.2
      cases hc : dictContains m b.url with
      | true =>
        rw [scrape_loop_cons_skip hc]
        exact ih m a sa hnodup2 hmem2 hs hnc
      | false =>
        cases hsb : scraper b with
        | none =>
          rw [scrape_loop_cons_failed hc hsb]
          exact ih m a sa hnodup2 hmem2 hs hnc
        | some sb =>
          rw [scrape_loop_cons_found hc hsb]
          have hsb_url : sb.url = b.url := hpres b sb hsb
          have hcontains2 : dictContains (dictAssign m sb.url sb) a.url = false := by
            rw [dictContains_assign_ne m sb (by rw [hsb_url]; exact fun he => hbne he.symm)]
            exact hnc
          exact ih (dictAssign m sb.url sb) a sa hnodup2 hmem2 hs hcontains2

/-- With a total scraper and pairwise-distinct urls, every article
contributes exactly one entry and one scraper call. -/
theorem scrape_loop_length (scraper : NewsArticle → Option ScrapedArticle)
    (hpres : ∀ a sa, scraper a = some sa → sa.url = a.url)
    (htotal : ∀ a, ∃ sa, scraper a = some sa) :
    ∀ (arts : List NewsArticle) (m : ScrapeMap),
      ((arts.map fun x => x.url).Nodup) →
      (∀ a ∈ arts, dictContains m a.url = false) →
      (scrape_articles_loop scraper arts m).1.length = m.length + arts.length ∧
      (scrape_articles_loop scraper arts m).2 = arts.length := by
  intro arts
  induction arts with
  | nil =>
    intro m _ _
    exact ⟨by simp [scrape_articles_loop], rfl⟩
  | cons a rest ih =>
    intro m hnodup hnc
    obtain ⟨sa, hs⟩ := htotal a
    have hnca : dictContains m a.url = false := hnc a (List.mem_cons_self _ _)
    rw [scrape_loop_cons_found hnca hs]
    have hsa_url : sa.url = a.url := hpres a sa hs
    have hassign : dictAssign m sa.url sa = m ++ [(sa.url, sa)] :=
      dictAssign_of_not_contains sa (by rw [hsa_url]; exact hnca)
    have hnodup2 : ((rest.map fun x => x.url).Nodup) := by
      rw [List.map_cons, List.nodup_cons] at hnodup
      exact hnodup.2
    have hnc2 : ∀ b ∈ rest, dictContains (dictAssign m sa.url sa) b.url = false := by
      intro b hb
      have hbne : b.url ≠ sa.url := by
        rw [hsa_url]
        intro he
        rw [List.map_cons, List.nodup_cons] at hnodup
        exact hnodup.1 (he ▸ List.mem_map.mpr ⟨b, hb, rfl⟩)
      rw [dictContains_assign_ne m sa hbne]
      exact hnc b (List.mem_cons_of_mem _ hb)
    obtain ⟨ih1, ih2⟩ := ih (dictAssign m sa.url sa) hnodup2 hnc2
    constructor
    · rw [ih1, hassign, List.length_append]
      simp
      omega
    · rw [ih2]
      simp

/-- The spec-modelled scraper preserves the url. -/
theorem scrapeOne_url (extract : NewsArticle → Except PyStr (Option PyStr × PyStr))
    (a : NewsArticle) : (scrapeOne extract a).url = a.url := by
  cases h : extract a with
  | ok v =>
    obtain ⟨t, x⟩ := v
    simp [scrapeOne, h]
  | error e =>
    simp [scrapeOne, h]

theorem specScraper_pres (extract : NewsArticle → Except PyStr (Option PyStr × PyStr)) :
    ∀ a sa, specScraper extract a = some sa → sa.url = a.url := by
  intro a sa h
  have : sa = scrapeOne extract a := by
    simpa [specScraper] using h.symm
  rw [this]
  exact scrapeOne_url extract a

/-- Did the extraction raise? -/
def extractRaised (r : Except PyStr (Option PyStr × PyStr)) : Bool :=
  match r with
  | .error _ => true
  | .ok _ => false

/-- A raising extraction scrapes to the placeholder record (content absent). -/
theorem scrapeOne_raised (extract : NewsArticle → Except PyStr (Option PyStr × PyStr))
    (a : NewsArticle) (h : extractRaised (extract a) = true) :
    scrapeOne extract a = placeholderOf a := by
  cases he : extract a with
  | ok v =>
    rw [he] at h
    simp [extractRaised] at h
  | error e =>
    simp [scrapeOne, he, placeholderOf]

/-- C6: under the spec's per-scrape contract (the scraper returns the url it
was given), every entry of the scraped map is keyed by its article's url and
equals the scrape of a search result with that url; the keys are pairwise
distinct; and the loop never overwrites an existing entry (first write
wins). -/
theorem scrape_articles_url_invariant (scraper : NewsArticle → Option ScrapedArticle)
    (hpres : ∀ a sa, scraper a = some sa → sa.url = a.url) (sr : SearchResults) :
    (((scrape_articles scraper sr).1.map fun p => p.1).Nodup) ∧
    (∀ p ∈ (scrape_articles scraper sr).1,
      p.2.url = p.1 ∧ ∃ a ∈ sr.articles, scraper a = some p.2 ∧ a.url = p.1) ∧
    (∀ (m : ScrapeMap) (k : PyStr), dictContains m k = true →
      dictLookup (scrape_articles_loop scraper sr.articles m).1 k = dictLookup m k) := by
  refine ⟨scrape_loop_keys_nodup scraper sr.articles [] (by simp), ?_, ?_⟩
  · intro p hp
    rcases scrape_loop_mem scraper sr.articles [] p hp with h | ⟨a, ha, hs, hurl⟩
    · exact absurd h (List.not_mem_nil p)
    · refine ⟨hurl.symm, a, ha, hs, ?_⟩
      rw [← hpres a p.2 hs, hurl]
  · intro m k h
    exact scrape_loop_lookup_stable scraper hpres sr.articles m k h

/-- C4: per-article extraction failure is isolated.  Under the spec's
per-scrape contract (spec §4.4: `scrape` never raises, converting an
extraction error into a ScrapedArticle with absent content), the batch over
pairwise-distinct urls stores one entry per article and calls the scraper
once per article; an article whose extraction raised is stored as the
placeholder with `content = none`; and if every extraction raises, every
stored entry has absent content. -/
theorem scrape_articles_failure_isolated
    (extract : NewsArticle → Except PyStr (Option PyStr × PyStr)) (sr : SearchResults)
    (hnodup : (sr.articles.map fun a => a.url).Nodup) :
    (scrape_articles (specScraper extract) sr).1.length = sr.articles.length ∧
    (scrape_articles (specScraper extract) sr).2 = sr.articles.length ∧
    (∀ a ∈ sr.articles, extractRaised (extract a) = true →
      dictLookup (scrape_articles (specScraper extract) sr).1 a.url =
        some (placeholderOf a)) ∧
    ((∀ a ∈ sr.articles, extractRaised (extract a) = true) →
      ∀ p ∈ (scrape_articles (specScraper extract) sr).1, p.2.content = none) := by
  obtain ⟨hlen, hcalls⟩ := scrape_loop_length (specScraper extract)
    (specScraper_pres extract) (fun a => ⟨scrapeOne extract a, rfl⟩) sr.articles []
    hnodup (fun a _ => rfl)
  refine ⟨by simpa using hlen, hcalls, ?_, ?_⟩
  · intro a ha hraised
    have := scrape_loop_lookup_first (specScraper extract) (specScraper_pres extract)
      sr.articles [] a (scrapeOne extract a) hnodup ha rfl rfl
    rw [scrapeOne_raised extract a hraised] at this
    exact this
  · intro hall p hp
    rcases scrape_loop_mem (specScraper extract) sr.articles [] p hp with h | ⟨a, ha, hs, _⟩
    · exact absurd h (List.not_mem_nil p)
    · have hp2 : p.2 = scrapeOne extract a := by
        simpa [specScraper] using hs.symm
      rw [hp2, scrapeOne_raised extract a (hall a ha), placeholderOf]

/-- A concrete always-raising extraction capability. -/
def wExtract : NewsArticle → Except PyStr (Option PyStr × PyStr) := fun _ => .error []

def wArticleA : NewsArticle :=
  { title := String.toList "A", url := String.toList "http://a", summary := none }

def wArticleB : NewsArticle :=
  { title := String.toList "B", url := String.toList "http://b", summary := none }

def wResults : SearchResults := ⟨[wArticleA, wArticleB]⟩

/-- C6 witness: the url invariant at a concrete scraper and result list. -/
theorem scrape_articles_url_invariant_witness :
    (((scrape_articles (specScraper wExtract) wResults).1.map fun p => p.1).Nodup) ∧
    (∀ p ∈ (scrape_articles (specScraper wExtract) wResults).1,
      p.2.url = p.1 ∧
      ∃ a ∈ wResults.articles, specScraper wExtract a = some p.2 ∧ a.url = p.1) :=
  ⟨(scrape_articles_url_invariant (specScraper wExtract)
      (specScraper_pres wExtract) wResults).1,
   (scrape_articles_url_invariant (specScraper wExtract)
      (specScraper_pres wExtract) wResults).2.1⟩

/-- C4 witness: two articles, both extractions raise — the map still has one
absent-content entry per article. -/
theorem scrape_articles_failure_isolated_witness :
    (scrape_articles (specScraper wExtract) wResults).1.length =
      wResults.articles.length ∧
    ∀ p ∈ (scrape_articles (specScraper wExtract) wResults).1, p.2.content = none :=
  ⟨(scrape_articles_failure_isolated wExtract wResults (by decide)).1,
   (scrape_articles_failure_isolated wExtract wResults (by decide)).2.2.2
     (fun a _ => rfl)⟩

/-! ## C1: the writer never receives zero articles -/

/-- Which traces `run` can produce, as far as the writer stage is concerned:
either the writer is never invoked, or it is invoked exactly once, on the
scrape map of a non-empty search-result list, with the placeholder
substitution applied when that map is empty. -/
theorem run_stage_shape (env : RunEnv) (topic style : Option PyStr) (inc : Bool) :
    (run env topic style inc).writerInputs = [] ∨
    ∃ sr : SearchResults,
      sr.articles ≠ [] ∧
      (run env topic style inc).searchResults = some sr ∧
      (run env topic style inc).scrapedMap = some (scrape_articles env.scraper sr).1 ∧
      (run env topic style inc).writerInputs =
        [{ topic := sanitize_user_text (topic.getD []) 600
           style_guidelines := sanitize_user_text (style.getD []) 1500
           include_sources := inc
           articles := dictValues (if (scrape_articles env.scraper sr).1 = []
             then sr.articles.map fun a => (a.url, placeholderOf a)
             else (scrape_articles env.scraper sr).1) }] := by
  by_cases h1 : sanitize_user_text (topic.getD []) 600 = []
  · left
    simp only [run]
    rw [if_pos h1]
  · simp only [run]
    rw [if_neg h1]
    cases hres : (get_search_results (env.search (build_search_query env.planner
        (topic.getD []) (sanitize_user_text (topic.getD []) 600)
        (sanitize_user_text (style.getD []) 1500)).1) 3).result with
    | none =>
      left
      simp only [hres]
    | some sr =>
      simp only [hres]
      by_cases h2 : sr.articles.length = 0
      · left
        rw [if_pos h2]
      · right
        refine ⟨sr, ?_, ?_, ?_, ?_⟩
        · intro he
          rw [he] at h2
          exact h2 rfl
        · rw [if_neg h2]
        · rw [if_neg h2]
        · rw [if_neg h2]

theorem dictValues_placeholder (arts : List NewsArticle) :
    dictValues (arts.map fun a => (a.url, placeholderOf a)) = arts.map placeholderOf := by
  rw [dictValues, List.map_map]
  rfl

theorem dictValues_ne_nil {m : ScrapeMap} (h : m ≠ []) : dictValues m ≠ [] := by
  intro he
  rw [dictValues] at he
  exact h (List.map_eq_nil_iff.mp he)

/-- C1: the pipeline never invokes the writer with zero articles: every
writer input of a run has a non-empty article list, and when the scrape map
came back empty the articles passed on are exactly the placeholder records
(content absent) of all search results. -/
theorem run_writer_nonempty (env : RunEnv) (topic style : Option PyStr) (inc : Bool) :
    ∀ wi ∈ (run env topic style inc).writerInputs,
      wi.articles ≠ [] ∧
      ((run env topic style inc).scrapedMap = some [] →
        ∃ sr, (run env topic style inc).searchResults = some sr ∧
          wi.articles = sr.articles.map placeholderOf) := by
  intro wi hwi
  rcases run_stage_shape env topic style inc with h | ⟨sr, hne, hsr, hsm, hwr⟩
  · rw [h] at hwi
    exact absurd hwi (List.not_mem_nil wi)
  · rw [hwr, List.mem_singleton] at hwi
    have harts : wi.articles =
        dictValues (if (scrape_articles env.scraper sr).1 = []
          then sr.articles.map fun a => (a.url, placeholderOf a)
          else (scrape_articles env.scraper sr).1) := by
      rw [hwi]
    by_cases hempty : (scrape_articles env.scraper sr).1 = []
    · refine ⟨?_, fun _ => ⟨sr, hsr, ?_⟩⟩
      · rw [harts, if_pos hempty, dictValues_placeholder]
        intro he
        exact hne (List.map_eq_nil_iff.mp he)
      · rw [harts, if_pos hempty]
        exact dictValues_placeholder sr.articles
    · refine ⟨?_, ?_⟩
      · rw [harts, if_neg hempty]
        exact dictValues_ne_nil hempty
      · intro hcontra
        rw [hsm] at hcontra
        have h0 : (scrape_articles env.scraper sr).1 = [] := by
          injection hcontra
        exact absurd h0 hempty

/-- A concrete writer chunk and environment in which the writer stage is
reached with a failing scraper. -/
def wChunk : Chunk := { content := some (String.toList "body"), sources := [] }

def wEnv : RunEnv :=
  { planner := none
    search := fun _ _ => .ok wResults
    scraper := fun _ => none
    writer := fun _ => [wChunk] }

def wTopic : PyStr := String.toList "ai"

/-- The writer input that `run` assembles in the concrete environment. -/
def wWriterInput : WriterInput :=
  { topic := String.toList "ai"
    style_guidelines := []
    include_sources := true
    articles := [placeholderOf wArticleA, placeholderOf wArticleB] }

/-- C1 witness: in a run whose every scrape fails, the writer is invoked
once, with the non-empty placeholder article list. -/
theorem run_writer_nonempty_witness :
    wWriterInput ∈ (run wEnv (some wTopic) none true).writerInputs ∧
    wWriterInput.articles ≠ [] :=
  ⟨by decide,
   (run_writer_nonempty wEnv (some wTopic) none true wWriterInput (by decide)).1⟩

/-! ## C8: the fallback feed parser

The `except ElementTree.ParseError` branch can never extract a CDATA item:
its title/description patterns, written with `\\[` inside a raw string,
compile to a regex demanding literal backslashes (and containing no capture
group), so `title_match` is `None` on every real feed and each item is
skipped by `if not url or not title ...`. -/

/-- The item body of a well-formed CDATA feed item. -/
def cdataItemBody : PyStr :=
  String.toList
    "<title><![CDATA[T]]></title><link>http://example.com/a</link><description><![CDATA[D]]></description>"

/-- A malformed feed (unclosed `<rss>`, so the structured parse raises)
containing one well-formed CDATA item. -/
def cdataFeed : PyStr :=
  String.toList "<rss><item>" ++ cdataItemBody ++ String.toList "</item>"

/-- C8 (code bug): on a malformed feed with one CDATA item, the fallback
finds the item body and the intended CDATA pattern would extract the title
`T`, but the miswritten pattern does not match, so the fallback returns zero
articles instead of the claimed SearchResult. -/
theorem fallback_cdata_extraction_bug :
    findItems cdataFeed = [cdataItemBody] ∧
    intendedCDataTitle cdataItemBody = some ['T'] ∧
    hasBuggyTitleMatch cdataItemBody = false ∧
    search_google_news_rss_fallback cdataFeed 10 = .ok ⟨[]⟩ := by
  refine ⟨by decide, by decide, by decide, by rfl⟩

/-! ## C9: the sources section of the assembled document -/

theorem collectBody_strip_sources (chunks : List Chunk) :
    collectBody (chunks.map fun c => { c with sources := [] }) = collectBody chunks := by
  rw [collectBody, collectBody, List.foldl_map]

/-- C9: the assembled document contains a Sources section only when
`include_sources` is true and the collected source set is non-empty.  With
`include_sources = false` the document is exactly the concatenated contents,
whatever sources the chunks carry; with `include_sources = true` the sorted
bulleted list is appended exactly when the source set is non-empty. -/
theorem generate_blog_sources_gating (chunks : List Chunk) :
    generate_blog_document false chunks = collectBody chunks ∧
    generate_blog_document false chunks =
      generate_blog_document false (chunks.map fun c => { c with sources := [] }) ∧
    (sortedSourceList chunks = [] →
      generate_blog_document true chunks = collectBody chunks) ∧
    (sortedSourceList chunks ≠ [] →
      generate_blog_document true chunks =
        collectBody chunks ++ sourcesHeading ++
          joinNewline ((sortedSourceList chunks).map fun src => String.toList "- " ++ src)) := by
  refine ⟨?_, ?_, ?_, ?_⟩
  · rw [generate_blog_document]
    simp
  · rw [generate_blog_document, generate_blog_document]
    simp [collectBody_strip_sources]
  · intro h
    rw [generate_blog_document]
    simp [h]
  · intro h
    rw [generate_blog_document]
    rw [if_pos (by simp [List.isEmpty_iff, h])]

/-- A concrete chunk stream carrying sources. -/
def wChunks : List Chunk :=
  [{ content := some (String.toList "Hello")
     sources := [String.toList "http://b", String.toList "http://a"] }]

/-- C9 witness: with `include_sources = true` and a non-empty source set the
heading and sorted bulleted list are appended. -/
theorem generate_blog_sources_gating_witness :
    generate_blog_document true wChunks =
      collectBody wChunks ++ sourcesHeading ++
        joinNewline ((sortedSourceList wChunks).map fun src => String.toList "- " ++ src) :=
  (generate_blog_sources_gating wChunks).2.2.2 (by decide)

/-- A concrete feed item list with a repeated link. -/
def wItems : List XmlItem :=
  [{ title := some (String.toList "T1"), link := some (String.toList "http://a")
     description := none },
   { title := some (String.toList "T2"), link := some (String.toList "http://b")
     description := none },
   { title := some (String.toList "T3"), link := some (String.toList "http://a")
     description := none }]

/-- C2 witness: the dedup contract at a concrete item list with a repeated
url — the repeated `http://a` is kept once, in first-occurrence order. -/
theorem search_xml_dedup_contract_witness :
    (search_google_news_rss_xml id wItems 10).articles =
      (dedupByUrl [] (acceptedArticles id wItems)).take 10 ∧
    (((search_google_news_rss_xml id wItems 10).articles.map fun a => a.url).Nodup) :=
  ⟨(search_xml_dedup_contract id wItems 10).1,
   (search_xml_dedup_contract id wItems 10).2.1⟩

/-- A search that raises on the first attempt and succeeds on the second. -/
def wSearch : Nat → Except Unit SearchResults :=
  fun i => if i = 0 then .error () else .ok wResults

/-- C3 witness: the amended retry contract at a concrete search behaviour. -/
theorem get_search_results_retry_contract_witness :
    (get_search_results wSearch 3).calls ≤ 3 ∧
    (get_search_results wSearch 3).sleeps =
      ((List.range (get_search_results wSearch 3).calls).filter
        (attemptRaised wSearch)).map (fun i => min (2 * (i + 1)) 5) :=
  ⟨(get_search_results_retry_contract wSearch 3).1,
   (get_search_results_retry_contract wSearch 3).2.1⟩

end AIBlog
